import Mathlib

/-!
Verification of the `nanopore_sync` repository.

The development shallowly embeds the program's core:

* `src/nanopore_sync/watchers.py` — the name matcher (`_extract_run_name`),
  the two watchdog event handlers (`RunDirectoryHandler`,
  `RunCompletionHandler`) and their asyncio condition-variable protocol,
  modelled as a deterministic state machine over filesystem-event
  sequences;
* `src/nanopore_sync/sync.py` — `sync_run` and `_dir_size` over a small
  filesystem model (note: the file in the repository contains unresolved
  merge-conflict markers; the embedding follows the only consistent
  resolution, the branch labelled "Ignore permission errors from copystat"
  which adds `import shutil`, since line 44 references `shutil.Error`);
* `src/nanopore_sync/config.py` — the default configuration values
  (run-name pattern, completion-signal pattern) and the set of attributes
  that `set_global_config` installs on the global `CONFIG` object.

Regular expressions: the code applies Python `re` to two configured
patterns (defaults `[0-9]{8}_[0-9]{4}_[^_]+_[^_]+_[a-f0-9]{8}` and
`.*/final_summary.*\.txt$`).  These patterns use only character classes
with fixed counts, `+`, and `.*`, so the embedding implements a
backtracking matcher (`acceptLens`) for exactly that fragment, with
Python's greedy, leftmost-first strategy, together with a declarative
acceptance predicate (`ItemsAccept`) against which the matcher is proved
correct.  Python's `.` without DOTALL matches any character except a
newline, which `anyChar` reflects.
-/

/-- A regex item in the fragment used by the configured patterns:
`cls f n` is a character class matched exactly `n` times (e.g. `[0-9]{8}`,
or a single literal character), `plus f` is `[...]+` (one or more,
greedy), `star f` is `[...]*`-style repetition (zero or more, greedy; used
for `.*`). -/
inductive RxItem where
  | cls (f : Char → Bool) (n : Nat)
  | plus (f : Char → Bool)
  | star (f : Char → Bool)

/-- Length of the maximal run of characters satisfying `f` at the head of
the string; the greedy matcher starts from this length and backtracks. -/
def runLen (f : Char → Bool) : List Char → Nat
  | [] => 0
  | c :: cs => if f c then runLen f cs + 1 else 0

/-- `[hi, hi-1, ..., lo]`: the candidate repetition counts in the order a
greedy backtracking matcher tries them. -/
def descRange (hi lo : Nat) : List Nat :=
  (List.range (hi + 1 - lo)).map (fun j => hi - j)

/-- All prefix lengths of `s` accepted by the item list, in Python's
backtracking order (greedy first).  `re` semantics: the realised match is
the head of this list. -/
def acceptLens : List RxItem → List Char → List Nat
  | [], _ => [0]
  | .cls f n :: rest, s =>
      if n ≤ s.length ∧ (s.take n).all f then
        (acceptLens rest (s.drop n)).map (n + ·)
      else []
  | .plus f :: rest, s =>
      (descRange (runLen f s) 1).flatMap
        (fun k => (acceptLens rest (s.drop k)).map (k + ·))
  | .star f :: rest, s =>
      (descRange (runLen f s) 0).flatMap
        (fun k => (acceptLens rest (s.drop k)).map (k + ·))

/-- Declarative acceptance: the item list matches exactly the string `t`.
Independent of the executable matcher; the matcher is proved correct
against it. -/
inductive ItemsAccept : List RxItem → List Char → Prop where
  | nil : ItemsAccept [] []
  | cls {f : Char → Bool} {n : Nat} {rest : List RxItem} {t u : List Char} :
      t.length = n → t.all f = true → ItemsAccept rest u →
      ItemsAccept (RxItem.cls f n :: rest) (t ++ u)
  | plus {f : Char → Bool} {rest : List RxItem} {t u : List Char} :
      t ≠ [] → t.all f = true → ItemsAccept rest u →
      ItemsAccept (RxItem.plus f :: rest) (t ++ u)
  | star {f : Char → Bool} {rest : List RxItem} {t u : List Char} :
      t.all f = true → ItemsAccept rest u →
      ItemsAccept (RxItem.star f :: rest) (t ++ u)

/-- `re.search` scan, fuelled for structural recursion: try the start
positions `i`, `i+1`, ..., `i+fuel` in order and return the first position
(with the greedily matched length) at which the pattern matches.  Mirrors
Python's leftmost-match rule. -/
def searchAux (items : List RxItem) (s : List Char) : Nat → Nat → Option (Nat × Nat)
  | i, 0 =>
    match (acceptLens items (s.drop i)).head? with
    | some n => some (i, n)
    | none => none
  | i, fuel + 1 =>
    match (acceptLens items (s.drop i)).head? with
    | some n => some (i, n)
    | none => searchAux items s (i + 1) fuel

/-- `re.search` over the whole string: first match at positions
`0, ..., s.length`. -/
def searchFrom (items : List RxItem) (s : List Char) : Option (Nat × Nat) :=
  searchAux items s 0 s.length

/-- `[0-9]` -/
def isDigitB (c : Char) : Bool := decide ('0' ≤ c ∧ c ≤ '9')

/-- `[a-f0-9]` -/
def isHexB (c : Char) : Bool := isDigitB c || decide ('a' ≤ c ∧ c ≤ 'f')

/-- `[^_]` -/
def nonUnderscore (c : Char) : Bool := c != '_'

/-- Python `.` (DOTALL off): any character but a newline. -/
def anyChar (c : Char) : Bool := c != '\n'

/-- The default run-name pattern from `config.py`:
`[0-9]{8}_[0-9]{4}_[^_]+_[^_]+_[a-f0-9]{8}`. -/
def runItems : List RxItem :=
  [.cls isDigitB 8, .cls (· == '_') 1, .cls isDigitB 4, .cls (· == '_') 1,
   .plus nonUnderscore, .cls (· == '_') 1, .plus nonUnderscore,
   .cls (· == '_') 1, .cls isHexB 8]

/-- Items for a literal string in a pattern (e.g. `final_summary`). -/
def litItems (w : String) : List RxItem :=
  w.data.map (fun c => RxItem.cls (· == c) 1)

/-- A literal `/` in a pattern. -/
def slashItem : RxItem := .cls (· == '/') 1

/-- `watchers.py` line 36-40: `_extract_run_name` performs
`re.search(CONFIG.run_name_pattern, path)` and returns the first match's
text, or `None`.  (The Python `@cache` decorator memoizes the call; the
function itself is pure, which the model renders directly.) -/
def _extract_run_name (path : String) : Option String :=
  (searchFrom runItems path.data).map
    (fun r => String.mk ((path.data.drop r.1).take r.2))

/-- `re.compile(pat).match(s)` truthiness for a pattern of the supported
fragment ending in `$`: some parse of the item list consumes the whole
string. -/
def matchFullB (items : List RxItem) (s : List Char) : Bool :=
  (acceptLens items s).contains s.length

/-- The gate regex of `RunDirectoryHandler` (watchers.py line 110):
`.*/{run_name_pattern}$`, matched by watchdog's
`RegexMatchingEventHandler` against event paths (the handler compiles it
with `re.IGNORECASE`; see `dirGate`). -/
def dirGateItems : List RxItem :=
  [RxItem.star anyChar, slashItem] ++ runItems

/-- The gate regex of `RunCompletionHandler` (watchers.py line 146):
`.*/{run_name_pattern}/{completion_signal_pattern}$`.  With the default
completion pattern `.*/final_summary.*\.txt$` the composition is
`.*/RUN/.*/final_summary.*\.txt$$` — note the completion pattern's own
leading `.*/`, which forces an intermediate path component between the
run directory and the signal file. -/
def fileGateItems : List RxItem :=
  [RxItem.star anyChar, slashItem] ++ runItems ++ [slashItem] ++
    ([RxItem.star anyChar, slashItem] ++ litItems "final_summary" ++
      [RxItem.star anyChar] ++ litItems ".txt")

/-- `re.IGNORECASE` on a character class of the supported fragment: a
character matches when it, or its ASCII case counterpart, satisfies the
class.  Watchdog's `RegexMatchingEventHandler` defaults to
`case_sensitive=False` and compiles its regexes with `re.I`; the two
handlers in watchers.py pass only `regexes=[...]`, so their gates are
case-insensitive (path characters here are ASCII). -/
def iCase (f : Char → Bool) : Char → Bool :=
  fun c => f c || f c.toLower || f c.toUpper

/-- Apply `re.IGNORECASE` to every class of an item list. -/
def iCaseItems (items : List RxItem) : List RxItem :=
  items.map (fun it =>
    match it with
    | .cls f n => .cls (iCase f) n
    | .plus f => .plus (iCase f)
    | .star f => .star (iCase f))

/-- Does the `RunDirectoryHandler` gate accept the path?  The gate
regex is compiled with `re.IGNORECASE` (watchdog default). -/
def dirGate (p : String) : Bool := matchFullB (iCaseItems dirGateItems) p.data

/-- Does the `RunCompletionHandler` gate accept the path?  The gate
regex is compiled with `re.IGNORECASE` (watchdog default). -/
def fileGate (p : String) : Bool := matchFullB (iCaseItems fileGateItems) p.data

/-- Filesystem events as delivered by the watchdog observer. -/
inductive FsEvent where
  | dirCreated (path : String)
  | dirMoved (src dest : String)
  | fileCreated (path : String)
  | fileClosed (path : String)
  | fileClosedNoWrite (path : String)
  | fileMoved (src dest : String)
  | fileDeleted (path : String)
  | fileModified (path : String)
deriving DecidableEq

/-- State of the two handlers and their asyncio plumbing.
`runCompletion` is the shared `_run_completion` dict, mapping a run name
to the identity of its current `aio.Condition` (a fresh number per
`aio.Condition()` call, since line 116 may overwrite an earlier one);
`doSyncWaiting` holds `_do_sync` tasks parked in `wait()` on a given
condition identity; `checkWaiting` holds `_check_completion` tasks parked
in `wait_for` on the `_new_run` condition; `discoveredLog` records each
"Detected new run" log line, `completionDetectedLog` each
"Run completion detected" log line; `syncInvocations` records calls of
`sync_run` (never reached, see module comment); `crashedTasks` counts
tasks killed by the `LOGGER.infog` `AttributeError`. -/
structure WatchState where
  runCompletion : List (String × Nat)
  runModified : List (String × Nat)
  nextCond : Nat
  doSyncWaiting : List (String × Nat)
  checkWaiting : List String
  discoveredLog : List String
  completionDetectedLog : List String
  syncInvocations : List String
  crashedTasks : Nat
deriving DecidableEq

/-- Dict lookup in `_run_completion` / `_run_modified`. -/
def lookupCond (m : List (String × Nat)) (rn : String) : Option Nat :=
  (m.find? (fun q => q.1 == rn)).map (fun q => q.2)

/-- Dict update `m[rn] = c` (the new binding shadows any previous one). -/
def updateCond (m : List (String × Nat)) (rn : String) (c : Nat) : List (String × Nat) :=
  (rn, c) :: m.filter (fun q => !(q.1 == rn))

/-- `_check_completion` lines 155-156 once `run_name` is in the dict:
`self._run_completion[run_name].notify_all()` wakes every `_do_sync` task
parked on the *current* condition object of that run.  Each woken task
logs "Run completion detected", then dies with `AttributeError` on
`LOGGER.infog` (line 124) before reaching `sync_run`. -/
def fireChecker (st : WatchState) (rn : String) : WatchState :=
  match lookupCond st.runCompletion rn with
  | none => st
  | some c =>
    let woken := st.doSyncWaiting.filter (fun t => t.1 == rn && t.2 == c)
    { st with
      doSyncWaiting := st.doSyncWaiting.filter (fun t => !(t.1 == rn && t.2 == c)),
      completionDetectedLog := st.completionDetectedLog ++ woken.map (fun t => t.1),
      crashedTasks := st.crashedTasks + woken.length }

/-- After `_do_sync` calls `self._new_run.notify_all()` (line 119) and
parks in `wait()` (line 121), every `_check_completion` task parked in
`wait_for` re-evaluates its predicate `run_name in self._run_completion`;
those whose predicate now holds resume and notify that run's completion
condition, the rest stay parked. -/
def runWokenCheckers (st : WatchState) : WatchState :=
  let ready := st.checkWaiting.filter (fun rn => (lookupCond st.runCompletion rn).isSome)
  let parked := st.checkWaiting.filter (fun rn => !(lookupCond st.runCompletion rn).isSome)
  ready.foldl fireChecker { st with checkWaiting := parked }

/-- The synchronous part of `_do_sync` for run `rn` (watchers.py lines
115-121): log "Detected new run", store fresh conditions in
`_run_completion` and `_run_modified` (overwriting any previous entry —
there is no de-duplication check), notify `_new_run`, and park in
`wait()` on the just-created completion condition. -/
def discoverStep (st : WatchState) (rn : String) : WatchState :=
  { st with
    discoveredLog := st.discoveredLog ++ [rn],
    runCompletion := updateCond st.runCompletion rn st.nextCond,
    runModified := updateCond st.runModified rn (st.nextCond + 1),
    nextCond := st.nextCond + 2,
    doSyncWaiting := st.doSyncWaiting ++ [(rn, st.nextCond)] }

/-- `RunDirectoryHandler._do_sync` (watchers.py lines 112-121, run to its
first suspension): extract the run name (return if none), perform
`discoverStep`, then the checkers woken by the `_new_run` notification
run. -/
def _do_sync (st : WatchState) (path : String) : WatchState :=
  match _extract_run_name path with
  | none => st
  | some rn => runWokenCheckers (discoverStep st rn)

/-- `RunCompletionHandler._check_completion` (watchers.py lines 148-156):
extract the run name (return if none); if the run is already in
`_run_completion`, `wait_for` passes immediately and the run's completion
condition is notified; otherwise the task parks on `_new_run`. -/
def _check_completion (st : WatchState) (path : String) : WatchState :=
  match _extract_run_name path with
  | none => st
  | some rn =>
    if (lookupCond st.runCompletion rn).isSome then fireChecker st rn
    else { st with checkWaiting := st.checkWaiting ++ [rn] }

/-- Observer dispatch for one event: the directory handler receives
`DirCreated`/`DirMoved` events whose source (or, for moves, destination)
path passes its gate regex and handles them with `_do_sync` on the
source/destination path (`on_created`/`on_moved`, lines 131-135); the
completion handler receives `FileClosed`/`FileMoved`/`FileCreated` events
passing its gate and handles them with `_check_completion`
(lines 162-169).  Closed-without-write, deleted and modified events are
not in either `event_filter` and are dropped. -/
def processEvent (st : WatchState) : FsEvent → WatchState
  | .dirCreated p => if dirGate p then _do_sync st p else st
  | .dirMoved s d => if dirGate s || dirGate d then _do_sync st d else st
  | .fileCreated p => if fileGate p then _check_completion st p else st
  | .fileClosed p => if fileGate p then _check_completion st p else st
  | .fileMoved s d => if fileGate s || fileGate d then _check_completion st d else st
  | _ => st

/-- Process a whole event sequence. -/
def processEvents (st : WatchState) (evs : List FsEvent) : WatchState :=
  evs.foldl processEvent st

/-- The state right after `watch_new_runs` starts observing. -/
def initWatch : WatchState := ⟨[], [], 0, [], [], [], [], [], 0⟩

/-- Does an event qualify as a discovery event for run `rn`? -/
def discoveryQualifiesFor : FsEvent → String → Bool
  | .dirCreated p, rn => dirGate p && (_extract_run_name p == some rn)
  | .dirMoved s d, rn => (dirGate s || dirGate d) && (_extract_run_name d == some rn)
  | _, _ => false

/-- Does an event qualify as a completion event for run `rn` (reaches the
body of `_check_completion` past the gate and the name extraction)? -/
def completionQualifiesFor : FsEvent → String → Bool
  | .fileCreated p, rn => fileGate p && (_extract_run_name p == some rn)
  | .fileClosed p, rn => fileGate p && (_extract_run_name p == some rn)
  | .fileMoved s d, rn => (fileGate s || fileGate d) && (_extract_run_name d == some rn)
  | _, _ => false

/-- A `_do_sync` task for run `rn` is parked on the run's *current*
completion condition, or the run's completion has already been logged.
(`_run_completion[rn]`'s invariant in the machine.) -/
def WaiterOrDone (rn : String) (st : WatchState) : Prop :=
  (∃ c, lookupCond st.runCompletion rn = some c ∧ (rn, c) ∈ st.doSyncWaiting) ∨
  rn ∈ st.completionDetectedLog

/-- Machine invariant: every parked `_do_sync` task and every completion
log line belongs to a discovered run, and every run present in
`_run_completion` has a live waiter on its current condition or has
already had its completion logged. -/
def GoodState (st : WatchState) : Prop :=
  (∀ t ∈ st.doSyncWaiting, t.1 ∈ st.discoveredLog) ∧
  (∀ rn ∈ st.completionDetectedLog, rn ∈ st.discoveredLog) ∧
  (∀ rn, (lookupCond st.runCompletion rn).isSome = true → WaiterOrDone rn st)

/-- A completion signal for `rn` is held: either a `_check_completion`
task is parked on `_new_run` for it, or its completion has been logged. -/
def HeldOrDone (rn : String) (st : WatchState) : Prop :=
  rn ∈ st.checkWaiting ∨ rn ∈ st.completionDetectedLog

/-! ### The sync operation (sync.py)

Paths are modelled as lists of components; a filesystem is a set of
directories plus regular files with byte contents.  `shutil.copytree`
(called with `copy_function=copy` at sync.py line 43) is modelled per the
stdlib: `os.scandir(src)` first (raising `FileNotFoundError` for a
missing source), then `os.makedirs(dst)` — which creates any missing
ancestor directories and raises `FileExistsError` if `dst` already
exists — then a recursive copy of contents, collecting per-entry errors
(including `copystat` failures on directories) into one `shutil.Error`
raised at the end.  Per-entry failures are supplied by an environment
oracle (`errOracle`), since they depend on OS conditions such as
permissions.

The repository's sync.py contains unresolved merge-conflict markers at
lines 2-5; the embedding uses the resolution that keeps `import shutil`
("Ignore permission errors from copystat" branch), the only one under
which line 44 (`except shutil.Error`) is meaningful. -/

/-- A filesystem: existing directories and regular files with contents
(lists of bytes). -/
structure FS where
  dirs : List (List String)
  files : List (List String × List Nat)
deriving DecidableEq

/-- Does the directory exist? -/
def existsDir (fs : FS) (p : List String) : Bool := decide (p ∈ fs.dirs)

/-- Does a regular file exist at the path? -/
def isFile (fs : FS) (p : List String) : Bool :=
  decide (p ∈ fs.files.map (fun f => f.1))

/-- Does anything exist at the path? -/
def existsPath (fs : FS) (p : List String) : Bool := existsDir fs p || isFile fs p

/-- Is `q` a strict descendant of directory `d`? -/
def isUnder (d q : List String) : Bool :=
  decide (d.length < q.length ∧ q.take d.length = d)

/-- `sync.py` lines 12-23: `_dir_size` sums `stat().st_size` over every
regular file below `path` (`path.glob("**/*")` with `is_file()`). -/
def _dir_size (fs : FS) (p : List String) : Nat :=
  ((fs.files.filter (fun f => isUnder p f.1)).map (fun f => f.2.length)).sum

/-- Relocate a path below `src` to the corresponding path below `dst`. -/
def relocate (src dst q : List String) : List String := dst ++ q.drop src.length

/-- All non-empty prefixes of `p` — the directories `os.makedirs(p)`
ensures exist. -/
def ancestors (p : List String) : List (List String) :=
  (List.range p.length).map (fun k => p.take (k + 1))

/-- Render a component path the way Python prints it in messages and
error tuples. -/
def renderPath (p : List String) : String := "/" ++ String.intercalate "/" p

/-- Result of the `copytree` call as observed by `sync_run`'s handlers:
success, `shutil.Error` with its list of `(src, dst, why)` entries,
`FileExistsError`, or any other exception. -/
inductive CopyRes where
  | ok
  | err (errors : List (String × String × String))
  | fileExists
  | otherExc (msg : String)
deriving DecidableEq

/-- `shutil.copytree(src, dst, copy_function=copy)` over the model.
Order of failure checks follows the stdlib: missing source first
(`os.scandir`), then existing destination (`os.makedirs` with
`exist_ok=False`); otherwise the destination (with any missing
ancestors) is created, each file below `src` is copied unless the
environment oracle reports a per-file error, and `copystat` errors on
`src` or its subdirectories are collected as well; a non-empty error
list is raised as `shutil.Error` at the end. -/
def copytree (fs : FS) (src dst : List String)
    (errOracle : List String → Option String) : FS × CopyRes :=
  if existsDir fs src = false then
    (fs, .otherExc ("[Errno 2] No such file or directory: " ++ renderPath src))
  else if existsPath fs dst then (fs, .fileExists)
  else
    let srcDirs := fs.dirs.filter (fun d => isUnder src d)
    let newDirs := ancestors dst ++ srcDirs.map (relocate src dst)
    let srcFiles := fs.files.filter (fun f => isUnder src f.1)
    let copied := (srcFiles.filter (fun f => (errOracle f.1).isNone)).map
      (fun f => (relocate src dst f.1, f.2))
    let fileErrs := (srcFiles.filter (fun f => (errOracle f.1).isSome)).map
      (fun f => (renderPath f.1, renderPath (relocate src dst f.1),
        (errOracle f.1).getD ""))
    let dirErrs := ((src :: srcDirs).filter (fun d => (errOracle d).isSome)).map
      (fun d => (renderPath d, renderPath (relocate src dst d),
        (errOracle d).getD ""))
    let errs := fileErrs ++ dirErrs
    let fsNew : FS :=
      ⟨fs.dirs ++ newDirs.filter (fun d => !(decide (d ∈ fs.dirs))), fs.files ++ copied⟩
    (fsNew, if errs.isEmpty then .ok else .err errs)

/-- One leveled log line of `sync_run`, by message (sync.py lines 42-61). -/
inductive LogMsg where
  | infoSyncing (run dest : String)
  | warningAlreadyExists (run dest : String)
  | errorUnableToCopy (run : String) (reasons : List String)
  | debugIgnorePermissions (run : String)
  | warningSizeMismatch (run : String) (ssize dsize : Nat)
  | infoSyncedSuccessfully (run : String)
deriving DecidableEq

/-- The configuration fields `sync_run` reads from the global `CONFIG`. -/
structure SyncCfg where
  destination : List String
  verify : Bool

/-- sync.py line 45: a `shutil.Error` is benign when every collected
entry's reason starts with `"[Errno 1] Operation not permitted"`. -/
def benignErrors (es : List (String × String × String)) : Bool :=
  es.all (fun e => e.2.2.startsWith "[Errno 1] Operation not permitted")

/-- sync.py lines 57-61: optional size verification, then the success
log.  Reached after a successful copy — and, because neither branch of
the `except shutil.Error` handler returns, also after a `shutil.Error`. -/
def verifyAndReport (fs : FS) (cfg : SyncCfg) (source target : List String)
    (run : String) (logs : List LogMsg) : FS × List LogMsg :=
  if cfg.verify && decide (_dir_size fs source ≠ _dir_size fs target) then
    (fs, logs ++ [.warningSizeMismatch run (_dir_size fs source) (_dir_size fs target)])
  else
    (fs, logs ++ [.infoSyncedSuccessfully run])

/-- `sync.py` lines 26-61: `sync_run`.  Computes
`target = destination / source.name`, logs "Syncing run ...", calls
`copytree`, and handles the outcomes: `FileExistsError` → warning and
return; any other plain exception → error and return; `shutil.Error` →
debug (benign, all entries `[Errno 1]`) or error (genuine), but *no
return* in either branch, so control falls through to verification;
then the optional size check and the success/mismatch log. -/
def sync_run (fs : FS) (cfg : SyncCfg) (errOracle : List String → Option String)
    (source : List String) : FS × List LogMsg :=
  let run := source.getLastD ""
  let target := cfg.destination ++ [run]
  let logs0 := [LogMsg.infoSyncing run (renderPath cfg.destination)]
  let res := copytree fs source target errOracle
  match res.2 with
  | .fileExists => (res.1, logs0 ++ [.warningAlreadyExists run (renderPath cfg.destination)])
  | .otherExc m => (res.1, logs0 ++ [.errorUnableToCopy run [m]])
  | .err es =>
    if benignErrors es then
      verifyAndReport res.1 cfg source target run (logs0 ++ [.debugIgnorePermissions run])
    else
      verifyAndReport res.1 cfg source target run
        (logs0 ++ [.errorUnableToCopy run (es.map (fun e => e.2.2))])
  | .ok => verifyAndReport res.1 cfg source target run logs0

/-- The destination path `sync_run` computes for a source
(`destination / source.name`, sync.py line 39). -/
def syncTarget (cfg : SyncCfg) (source : List String) : List String :=
  cfg.destination ++ [source.getLastD ""]

/-! ### The post-completion continuation (watchers.py lines 123-126, for C9)

`LOGGER` is a stdlib `logging.Logger` (logging.py line 10); the global
`CONFIG` object carries exactly the attributes that `set_global_config`
assigns (config.py lines 54-71).  Attribute access on either raises
`AttributeError` for any other name.  Python resolves the callee
`LOGGER.infog` before evaluating the f-string argument, so line 124
raises on the attribute lookup. -/

/-- A Python exception value observed by the model. -/
inductive PyExc where
  | attributeError (obj attr : String)
deriving DecidableEq

/-- Public methods of Python's stdlib `logging.Logger`. -/
def loggerMethods : List String :=
  ["debug", "info", "warning", "warn", "error", "exception", "critical",
   "fatal", "log", "setLevel", "isEnabledFor", "getEffectiveLevel",
   "getChild", "addHandler", "removeHandler", "hasHandlers", "handle",
   "makeRecord", "findCaller", "addFilter", "removeFilter", "filter"]

/-- The attributes `set_global_config` installs on the global `CONFIG`
object (config.py lines 66-70); these are also exactly the annotated
fields of the `CONFIG` class (config.py lines 6-11). -/
def configAttrs : List String :=
  ["source", "destination", "run_name_pattern", "completion_signal_pattern",
   "verify"]

/-- `getattr(LOGGER, m)`. -/
def getLoggerMethod (m : String) : Except PyExc Unit :=
  if loggerMethods.contains m then .ok () else .error (.attributeError "LOGGER" m)

/-- `getattr(CONFIG, a)`. -/
def getConfigAttr (a : String) : Except PyExc Unit :=
  if configAttrs.contains a then .ok () else .error (.attributeError "CONFIG" a)

/-- The continuation of `_do_sync` after its completion condition fires
(watchers.py lines 123-126), step by step; returns whether `sync_run`
(line 126) was invoked. -/
def doSyncAfterCompletion : Except PyExc Bool := do
  getLoggerMethod "info"
  getLoggerMethod "infog"
  getConfigAttr "completion_delay"
  pure true

/-! ### Correctness of the regex engine (used by claim C4) -/

theorem runLen_le_length (f : Char → Bool) : ∀ s : List Char, runLen f s ≤ s.length := by
  intro s
  induction s with
  | nil => simp [runLen]
  | cons c cs ih =>
    simp only [runLen, List.length_cons]
    split <;> omega

theorem take_all_of_le_runLen (f : Char → Bool) :
    ∀ (s : List Char) (k : Nat), k ≤ runLen f s → (s.take k).all f = true := by
  intro s
  induction s with
  | nil => intro k hk; simp [runLen] at hk; simp [hk]
  | cons c cs ih =>
    intro k hk
    simp only [runLen] at hk
    by_cases hc : f c
    · simp only [hc, if_pos] at hk
      match k with
      | 0 => simp
      | k' + 1 =>
        simp only [List.take_succ_cons, List.all_cons, hc, Bool.true_and]
        exact ih k' (by omega)
    · simp only [hc, if_neg, Bool.false_eq_true, not_false_eq_true] at hk
      simp at hk
      simp [hk]

theorem le_runLen_of_take_all (f : Char → Bool) :
    ∀ (s : List Char) (k : Nat), k ≤ s.length → (s.take k).all f = true → k ≤ runLen f s := by
  intro s
  induction s with
  | nil => intro k hk _; simp at hk; simp [hk]
  | cons c cs ih =>
    intro k hk hall
    match k with
    | 0 => omega
    | k' + 1 =>
      simp only [List.take_succ_cons, List.all_cons, Bool.and_eq_true] at hall
      simp only [runLen, hall.1, if_pos]
      have := ih k' (by simpa using hk) hall.2
      omega

theorem mem_descRange {hi lo k : Nat} : k ∈ descRange hi lo ↔ lo ≤ k ∧ k ≤ hi := by
  simp only [descRange, List.mem_map, List.mem_range]
  constructor
  · rintro ⟨j, hj, rfl⟩; omega
  · rintro ⟨h1, h2⟩; exact ⟨hi - k, by omega, by omega⟩

theorem itemsAccept_nil_iff {t : List Char} : ItemsAccept [] t ↔ t = [] := by
  constructor
  · intro h; cases h; rfl
  · rintro rfl; exact .nil

/-- Engine correctness: the backtracking matcher's accepted prefix lengths
are exactly the lengths of declaratively accepted prefixes. -/
theorem mem_acceptLens :
    ∀ (items : List RxItem) (s : List Char) (n : Nat),
      n ∈ acceptLens items s ↔
        ∃ t u, s = t ++ u ∧ t.length = n ∧ ItemsAccept items t := by
  intro items
  induction items with
  | nil =>
    intro s n
    simp only [acceptLens, List.mem_singleton]
    constructor
    · rintro rfl; exact ⟨[], s, rfl, rfl, .nil⟩
    · rintro ⟨t, u, rfl, hl, ha⟩
      rw [itemsAccept_nil_iff] at ha
      subst ha; simpa using hl.symm
  | cons it rest ih =>
    intro s n
    cases it with
    | cls f m =>
      by_cases hc : m ≤ s.length ∧ (s.take m).all f
      · simp only [acceptLens, if_pos hc, List.mem_map]
        constructor
        · rintro ⟨n', hn', rfl⟩
          obtain ⟨t, u, hdrop, hlen, ha⟩ := (ih (s.drop m) n').mp hn'
          refine ⟨s.take m ++ t, u, ?_, ?_, ?_⟩
          · rw [List.append_assoc, ← hdrop, List.take_append_drop]
          · simp [List.length_take, Nat.min_eq_left hc.1, hlen]
          · exact .cls (by simp [List.length_take, Nat.min_eq_left hc.1]) hc.2 ha
        · rintro ⟨t0, u, hs, rfl, ha⟩
          cases ha with
          | cls hlen hall ha2 =>
            rename_i t1 t2
            subst hlen
            have hsplit : s = t1 ++ (t2 ++ u) := by rw [hs, List.append_assoc]
            have hdrop : s.drop t1.length = t2 ++ u := by
              rw [hsplit, List.drop_left]
            refine ⟨t2.length, (ih (s.drop t1.length) t2.length).mpr ⟨t2, u, hdrop, rfl, ha2⟩, ?_⟩
            simp
      · simp only [acceptLens, if_neg hc, List.not_mem_nil, false_iff]
        rintro ⟨t0, u, hs, rfl, ha⟩
        cases ha with
        | cls hlen hall ha2 =>
          rename_i t1 t2
          subst hlen
          apply hc
          have hsplit : s = t1 ++ (t2 ++ u) := by rw [hs, List.append_assoc]
          have h1 : t1.length ≤ s.length := by rw [hsplit]; simp
          have h2 : s.take t1.length = t1 := by rw [hsplit, List.take_left]
          exact ⟨h1, by rw [h2]; exact hall⟩
    | plus f =>
      simp only [acceptLens, List.mem_flatMap, List.mem_map]
      constructor
      · rintro ⟨k, hk, n', hn', rfl⟩
        rw [mem_descRange] at hk
        obtain ⟨t, u, hdrop, hlen, ha⟩ := (ih (s.drop k) n').mp hn'
        have hkl : k ≤ s.length := le_trans hk.2 (runLen_le_length f s)
        refine ⟨s.take k ++ t, u, ?_, ?_, ?_⟩
        · rw [List.append_assoc, ← hdrop, List.take_append_drop]
        · simp [List.length_take, Nat.min_eq_left hkl, hlen]
        · refine .plus ?_ (take_all_of_le_runLen f s k hk.2) ha
          intro hnil
          have : (s.take k).length = 0 := by rw [hnil]; rfl
          rw [List.length_take, Nat.min_eq_left hkl] at this
          omega
      · rintro ⟨t0, u, hs, rfl, ha⟩
        cases ha with
        | plus hne hall ha2 =>
          rename_i t1 t2
          have hsplit : s = t1 ++ (t2 ++ u) := by rw [hs, List.append_assoc]
          have h1 : t1.length ≤ s.length := by rw [hsplit]; simp
          have h2 : s.take t1.length = t1 := by rw [hsplit, List.take_left]
          have hrl : t1.length ≤ runLen f s :=
            le_runLen_of_take_all f s t1.length h1 (by rw [h2]; exact hall)
          have hdrop : s.drop t1.length = t2 ++ u := by rw [hsplit, List.drop_left]
          refine ⟨t1.length, mem_descRange.mpr ⟨?_, hrl⟩, t2.length,
            (ih (s.drop t1.length) t2.length).mpr ⟨t2, u, hdrop, rfl, ha2⟩, by simp⟩
          cases t1 with
          | nil => exact absurd rfl hne
          | cons a l => simp
    | star f =>
      simp only [acceptLens, List.mem_flatMap, List.mem_map]
      constructor
      · rintro ⟨k, hk, n', hn', rfl⟩
        rw [mem_descRange] at hk
        obtain ⟨t, u, hdrop, hlen, ha⟩ := (ih (s.drop k) n').mp hn'
        have hkl : k ≤ s.length := le_trans hk.2 (runLen_le_length f s)
        refine ⟨s.take k ++ t, u, ?_, ?_, ?_⟩
        · rw [List.append_assoc, ← hdrop, List.take_append_drop]
        · simp [List.length_take, Nat.min_eq_left hkl, hlen]
        · exact .star (take_all_of_le_runLen f s k hk.2) ha
      · rintro ⟨t0, u, hs, rfl, ha⟩
        cases ha with
        | star hall ha2 =>
          rename_i t1 t2
          have hsplit : s = t1 ++ (t2 ++ u) := by rw [hs, List.append_assoc]
          have h1 : t1.length ≤ s.length := by rw [hsplit]; simp
          have h2 : s.take t1.length = t1 := by rw [hsplit, List.take_left]
          have hrl : t1.length ≤ runLen f s :=
            le_runLen_of_take_all f s t1.length h1 (by rw [h2]; exact hall)
          have hdrop : s.drop t1.length = t2 ++ u := by rw [hsplit, List.drop_left]
          exact ⟨t1.length, mem_descRange.mpr ⟨Nat.zero_le _, hrl⟩, t2.length,
            (ih (s.drop t1.length) t2.length).mpr ⟨t2, u, hdrop, rfl, ha2⟩, by simp⟩

theorem searchAux_none (items : List RxItem) (s : List Char) :
    ∀ (fuel i : Nat), searchAux items s i fuel = none →
      ∀ j, i ≤ j → j ≤ i + fuel → (acceptLens items (s.drop j)).head? = none := by
  intro fuel
  induction fuel with
  | zero =>
    intro i hs j hij hjf
    rw [searchAux] at hs
    cases hh : (acceptLens items (s.drop i)).head? with
    | some n => rw [hh] at hs; simp at hs
    | none => have hj : j = i := by omega
              rw [hj]; exact hh
  | succ fuel ih =>
    intro i hs j hij hjf
    rw [searchAux] at hs
    cases hh : (acceptLens items (s.drop i)).head? with
    | some n => rw [hh] at hs; simp at hs
    | none =>
      rw [hh] at hs
      rcases Nat.eq_or_lt_of_le hij with rfl | hlt
      · exact hh
      · exact ih (i + 1) hs j (by omega) (by omega)

theorem searchAux_some (items : List RxItem) (s : List Char) :
    ∀ (fuel i j n : Nat), searchAux items s i fuel = some (j, n) →
      i ≤ j ∧ (acceptLens items (s.drop j)).head? = some n ∧
        ∀ k, i ≤ k → k < j → (acceptLens items (s.drop k)).head? = none := by
  intro fuel
  induction fuel with
  | zero =>
    intro i j n hs
    rw [searchAux] at hs
    cases hh : (acceptLens items (s.drop i)).head? with
    | some m =>
      rw [hh] at hs
      simp only [Option.some.injEq, Prod.mk.injEq] at hs
      exact ⟨by omega, by rw [← hs.1, hh, hs.2], by intro k h1 h2; omega⟩
    | none => rw [hh] at hs; simp at hs
  | succ fuel ih =>
    intro i j n hs
    rw [searchAux] at hs
    cases hh : (acceptLens items (s.drop i)).head? with
    | some m =>
      rw [hh] at hs
      simp only [Option.some.injEq, Prod.mk.injEq] at hs
      exact ⟨by omega, by rw [← hs.1, hh, hs.2], by intro k h1 h2; omega⟩
    | none =>
      rw [hh] at hs
      obtain ⟨h1, h2, h3⟩ := ih (i + 1) j n hs
      refine ⟨by omega, h2, ?_⟩
      intro k hk1 hk2
      rcases Nat.eq_or_lt_of_le hk1 with rfl | hlt
      · exact hh
      · exact h3 k (by omega) hk2

theorem runItems_accept_ne_nil {t : List Char} (h : ItemsAccept runItems t) : t ≠ [] := by
  rw [show runItems = RxItem.cls isDigitB 8 :: runItems.tail from rfl] at h
  cases h with
  | cls hlen hall ha =>
    rename_i t1 t2
    intro hnil
    rw [List.append_eq_nil] at hnil
    rw [hnil.1] at hlen
    simp at hlen

/-- C4: for all path strings `P`, `_extract_run_name P` returns a value
iff `P` contains a substring matched by the configured run-name pattern
(declaratively: some decomposition `P = pre ++ t ++ post` with
`ItemsAccept runItems t`); any returned run name is non-empty and is the
text of the first (leftmost) match; and the function is deterministic and
idempotent (it is pure, so repeated application gives the same result). -/
theorem c4_name_matcher (p : String) :
    ((_extract_run_name p).isSome = true ↔
      ∃ pre t post, p.data = pre ++ t ++ post ∧ ItemsAccept runItems t) ∧
    (∀ r, _extract_run_name p = some r →
      r ≠ "" ∧
      ∃ pre t post, p.data = pre ++ t ++ post ∧ ItemsAccept runItems t ∧
        r.data = t ∧
        ∀ pre' t' post', p.data = pre' ++ t' ++ post' → ItemsAccept runItems t' →
          pre.length ≤ pre'.length) ∧
    _extract_run_name p = _extract_run_name p := by
  refine ⟨?_, ?_, rfl⟩
  · cases hsf : searchFrom runItems p.data with
    | none =>
      simp only [_extract_run_name, hsf, Option.map_none', Option.isSome_none,
        Bool.false_eq_true, false_iff]
      rintro ⟨pre, t, post, hdec, ha⟩
      have hjs : pre.length ≤ p.data.length := by rw [hdec]; simp
      unfold searchFrom at hsf
      have hnone := searchAux_none runItems p.data p.data.length 0 hsf
        pre.length (Nat.zero_le _) (by omega)
      rw [List.head?_eq_none_iff] at hnone
      have hdrop : p.data.drop pre.length = t ++ post := by
        rw [hdec, List.append_assoc, List.drop_left]
      have hmem : t.length ∈ acceptLens runItems (p.data.drop pre.length) :=
        (mem_acceptLens runItems _ t.length).mpr ⟨t, post, hdrop, rfl, ha⟩
      rw [hnone] at hmem
      exact List.not_mem_nil _ hmem
    | some r =>
      obtain ⟨j, n⟩ := r
      unfold searchFrom at hsf
      obtain ⟨-, h2, -⟩ := searchAux_some runItems p.data p.data.length 0 j n hsf
      have hn : n ∈ acceptLens runItems (p.data.drop j) := List.mem_of_mem_head? h2
      obtain ⟨t, u, hdrop, hlen, ha⟩ := (mem_acceptLens runItems _ n).mp hn
      simp only [_extract_run_name, searchFrom, hsf, Option.map_some',
        Option.isSome_some, true_iff]
      refine ⟨p.data.take j, t, u, ?_, ha⟩
      rw [List.append_assoc, ← hdrop, List.take_append_drop]
  · intro r hr
    simp only [_extract_run_name] at hr
    cases hsf : searchFrom runItems p.data with
    | none => rw [hsf] at hr; simp at hr
    | some jn =>
      rw [hsf] at hr
      obtain ⟨j, n⟩ := jn
      simp only [Option.map_some', Option.some.injEq] at hr
      unfold searchFrom at hsf
      obtain ⟨-, h2, h3⟩ := searchAux_some runItems p.data p.data.length 0 j n hsf
      have hn : n ∈ acceptLens runItems (p.data.drop j) := List.mem_of_mem_head? h2
      obtain ⟨t, u, hdrop, hlen, ha⟩ := (mem_acceptLens runItems _ n).mp hn
      have htake : (p.data.drop j).take n = t := by
        rw [hdrop, ← hlen, List.take_left]
      have hrdata : r.data = t := by rw [← hr, htake]
      have htne : t ≠ [] := runItems_accept_ne_nil ha
      refine ⟨?_, p.data.take j, t, u, ?_, ha, hrdata, ?_⟩
      · intro hre
        rw [hre] at hrdata
        exact htne hrdata.symm
      · rw [List.append_assoc, ← hdrop, List.take_append_drop]
      · intro pre' t' post' hdec' ha'
        have hjle : j ≤ p.data.length := by
          by_contra hgt
          have hdn : p.data.drop j = [] := List.drop_eq_nil_of_le (by omega)
          rw [hdn] at hdrop
          have := congrArg List.length hdrop
          simp at this
          exact htne (List.eq_nil_of_length_eq_zero (by omega))
        have hjlen : (p.data.take j).length = j := by
          rw [List.length_take, Nat.min_eq_left hjle]
        rw [hjlen]
        by_contra hlt
        push_neg at hlt
        have hdrop' : p.data.drop pre'.length = t' ++ post' := by
          rw [hdec', List.append_assoc, List.drop_left]
        have hmem' : t'.length ∈ acceptLens runItems (p.data.drop pre'.length) :=
          (mem_acceptLens runItems _ t'.length).mpr ⟨t', post', hdrop', rfl, ha'⟩
        have hnone := h3 pre'.length (Nat.zero_le _) hlt
        rw [List.head?_eq_none_iff] at hnone
        rw [hnone] at hmem'
        exact List.not_mem_nil _ hmem'

/-- Witness for C4 at a concrete path: the matcher succeeds on
`/data/20231001_1200_run_a_12345678`, so the declarative decomposition
exists. -/
theorem c4_name_matcher_witness :
    ∃ pre t post, "/data/20231001_1200_run_a_12345678".data = pre ++ t ++ post ∧
      ItemsAccept runItems t :=
  (c4_name_matcher "/data/20231001_1200_run_a_12345678").1.mp (by decide)

theorem fireChecker_runCompletion (st : WatchState) (a : String) :
    (fireChecker st a).runCompletion = st.runCompletion := by
  unfold fireChecker; split <;> rfl

theorem fireChecker_checkWaiting (st : WatchState) (a : String) :
    (fireChecker st a).checkWaiting = st.checkWaiting := by
  unfold fireChecker; split <;> rfl

theorem fireChecker_discoveredLog (st : WatchState) (a : String) :
    (fireChecker st a).discoveredLog = st.discoveredLog := by
  unfold fireChecker; split <;> rfl

theorem fireChecker_syncInvocations (st : WatchState) (a : String) :
    (fireChecker st a).syncInvocations = st.syncInvocations := by
  unfold fireChecker; split <;> rfl

theorem fireChecker_detected_mono {st : WatchState} {a rn : String}
    (h : rn ∈ st.completionDetectedLog) :
    rn ∈ (fireChecker st a).completionDetectedLog := by
  unfold fireChecker
  split
  · exact h
  · exact List.mem_append_left _ h

theorem fireChecker_detected_sub {st : WatchState} {a rn : String}
    (h : rn ∈ (fireChecker st a).completionDetectedLog) :
    rn ∈ st.completionDetectedLog ∨ ∃ c, (rn, c) ∈ st.doSyncWaiting := by
  unfold fireChecker at h
  split at h
  · exact Or.inl h
  · rcases List.mem_append.mp h with h1 | h2
    · exact Or.inl h1
    · obtain ⟨t, ht, rfl⟩ := List.mem_map.mp h2
      exact Or.inr ⟨t.2, List.mem_of_mem_filter ht⟩

theorem fireChecker_waiting_sub {st : WatchState} {a : String} {t : String × Nat}
    (h : t ∈ (fireChecker st a).doSyncWaiting) : t ∈ st.doSyncWaiting := by
  unfold fireChecker at h
  split at h
  · exact h
  · exact List.mem_of_mem_filter h

theorem fireChecker_fires {st : WatchState} {rn : String} {c : Nat}
    (hl : lookupCond st.runCompletion rn = some c)
    (hm : (rn, c) ∈ st.doSyncWaiting) :
    rn ∈ (fireChecker st rn).completionDetectedLog := by
  unfold fireChecker
  rw [hl]
  refine List.mem_append_right _ ?_
  exact List.mem_map.mpr ⟨(rn, c), List.mem_filter.mpr ⟨hm, by simp⟩, rfl⟩

theorem fireChecker_wod {st : WatchState} {a rn : String}
    (h : WaiterOrDone rn st) : WaiterOrDone rn (fireChecker st a) := by
  rcases h with ⟨c, hl, hm⟩ | hd
  · unfold fireChecker
    cases hla : lookupCond st.runCompletion a with
    | none => exact Or.inl ⟨c, hl, hm⟩
    | some ca =>
      by_cases hcond : (rn == a && c == ca) = true
      · right
        simp only [Bool.and_eq_true, beq_iff_eq] at hcond
        refine List.mem_append_right _ ?_
        exact List.mem_map.mpr ⟨(rn, c), List.mem_filter.mpr ⟨hm, by simp [hcond]⟩, rfl⟩
      · left
        refine ⟨c, hl, ?_⟩
        have hfalse : (rn == a && c == ca) = false := by
          revert hcond; cases rn == a && c == ca <;> simp
        exact List.mem_filter.mpr ⟨hm, by simp [hfalse]⟩
  · exact Or.inr (fireChecker_detected_mono hd)

theorem fireChecker_good {st : WatchState} {a : String}
    (hg : GoodState st) : GoodState (fireChecker st a) := by
  obtain ⟨h1, h2, h3⟩ := hg
  refine ⟨?_, ?_, ?_⟩
  · intro t ht
    rw [fireChecker_discoveredLog]
    exact h1 t (fireChecker_waiting_sub ht)
  · intro rn hrn
    rw [fireChecker_discoveredLog]
    rcases fireChecker_detected_sub hrn with hd | ⟨c, hc⟩
    · exact h2 rn hd
    · exact h1 (rn, c) hc
  · intro rn hrn
    rw [fireChecker_runCompletion] at hrn
    exact fireChecker_wod (h3 rn hrn)

theorem foldFire_runCompletion :
    ∀ (l : List String) (st : WatchState),
      (l.foldl fireChecker st).runCompletion = st.runCompletion := by
  intro l
  induction l with
  | nil => intro st; rfl
  | cons a t ih => intro st; rw [List.foldl_cons, ih, fireChecker_runCompletion]

theorem foldFire_checkWaiting :
    ∀ (l : List String) (st : WatchState),
      (l.foldl fireChecker st).checkWaiting = st.checkWaiting := by
  intro l
  induction l with
  | nil => intro st; rfl
  | cons a t ih => intro st; rw [List.foldl_cons, ih, fireChecker_checkWaiting]

theorem foldFire_syncInvocations :
    ∀ (l : List String) (st : WatchState),
      (l.foldl fireChecker st).syncInvocations = st.syncInvocations := by
  intro l
  induction l with
  | nil => intro st; rfl
  | cons a t ih => intro st; rw [List.foldl_cons, ih, fireChecker_syncInvocations]

theorem foldFire_detected_mono {rn : String} :
    ∀ (l : List String) (st : WatchState), rn ∈ st.completionDetectedLog →
      rn ∈ (l.foldl fireChecker st).completionDetectedLog := by
  intro l
  induction l with
  | nil => intro st h; exact h
  | cons a t ih => intro st h; exact ih _ (fireChecker_detected_mono h)

theorem foldFire_good :
    ∀ (l : List String) (st : WatchState), GoodState st →
      GoodState (l.foldl fireChecker st) := by
  intro l
  induction l with
  | nil => intro st h; exact h
  | cons a t ih => intro st h; exact ih _ (fireChecker_good h)

theorem foldFire_fires {rn : String} :
    ∀ (l : List String) (st : WatchState), rn ∈ l → WaiterOrDone rn st →
      rn ∈ (l.foldl fireChecker st).completionDetectedLog := by
  intro l
  induction l with
  | nil => intro st h; exact absurd h (List.not_mem_nil _)
  | cons a t ih =>
    intro st hmem hwod
    rcases List.mem_cons.mp hmem with rfl | hmt
    · rcases hwod with ⟨c, hl, hm⟩ | hd
      · exact foldFire_detected_mono t _ (fireChecker_fires hl hm)
      · exact foldFire_detected_mono t _ (fireChecker_detected_mono hd)
    · exact ih _ hmt (fireChecker_wod hwod)

theorem rwc_runCompletion (st : WatchState) :
    (runWokenCheckers st).runCompletion = st.runCompletion := by
  unfold runWokenCheckers
  rw [foldFire_runCompletion]

theorem rwc_syncInvocations (st : WatchState) :
    (runWokenCheckers st).syncInvocations = st.syncInvocations := by
  unfold runWokenCheckers
  rw [foldFire_syncInvocations]

theorem rwc_detected_mono {st : WatchState} {rn : String}
    (h : rn ∈ st.completionDetectedLog) :
    rn ∈ (runWokenCheckers st).completionDetectedLog := by
  unfold runWokenCheckers
  exact foldFire_detected_mono _ _ h

theorem rwc_good {st : WatchState} (hg : GoodState st) :
    GoodState (runWokenCheckers st) := by
  unfold runWokenCheckers
  exact foldFire_good _ _ hg

theorem rwc_hod {st : WatchState} {rn : String} (hg : GoodState st)
    (h : HeldOrDone rn st) : HeldOrDone rn (runWokenCheckers st) := by
  rcases h with hw | hd
  · by_cases hr : (lookupCond st.runCompletion rn).isSome = true
    · right
      unfold runWokenCheckers
      refine foldFire_fires _ _ (List.mem_filter.mpr ⟨hw, by simp [hr]⟩) ?_
      exact hg.2.2 rn hr
    · left
      unfold runWokenCheckers
      rw [foldFire_checkWaiting]
      exact List.mem_filter.mpr ⟨hw, by simp [hr]⟩
  · exact Or.inr (rwc_detected_mono hd)

theorem lookup_update_self (m : List (String × Nat)) (rn : String) (c : Nat) :
    lookupCond (updateCond m rn c) rn = some c := by
  simp [lookupCond, updateCond, List.find?]

theorem lookup_update_other (m : List (String × Nat)) {rn rn' : String} (c : Nat)
    (h : rn' ≠ rn) : lookupCond (updateCond m rn c) rn' = lookupCond m rn' := by
  have hne : (rn == rn') = false := by
    simp only [beq_eq_false_iff_ne, ne_eq]
    exact fun he => h he.symm
  simp only [lookupCond, updateCond, List.find?, hne]
  induction m with
  | nil => rfl
  | cons q t ih =>
    by_cases hq : (q.1 == rn) = true
    · have hq' : (q.1 == rn') = false := by
        rw [beq_iff_eq] at hq
        simp only [beq_eq_false_iff_ne, ne_eq, hq]
        exact fun he => h he.symm
      simp only [List.filter, Bool.not_eq_true', hq, List.find?, hq']
      simpa [List.find?, hq'] using ih
    · have hq2 : (!(q.1 == rn)) = true := by simp [Bool.not_eq_true', ← Bool.not_eq_true] at hq ⊢; exact hq
      simp only [List.filter, hq2, List.find?]
      cases hq' : q.1 == rn' with
      | true => rfl
      | false => simpa [List.find?, hq'] using ih

theorem discoverStep_good {st : WatchState} {rn : String} (hg : GoodState st) :
    GoodState (discoverStep st rn) := by
  obtain ⟨h1, h2, h3⟩ := hg
  refine ⟨?_, ?_, ?_⟩
  · intro t ht
    rcases List.mem_append.mp ht with hold | hnew
    · exact List.mem_append_left _ (h1 t hold)
    · rcases List.mem_singleton.mp hnew with rfl
      exact List.mem_append_right _ (List.mem_singleton.mpr rfl)
  · intro x hx
    exact List.mem_append_left _ (h2 x hx)
  · intro x hx
    by_cases hxr : x = rn
    · subst hxr
      left
      exact ⟨st.nextCond, lookup_update_self _ _ _,
        List.mem_append_right _ (List.mem_singleton.mpr rfl)⟩
    · simp only [discoverStep] at hx
      rw [lookup_update_other _ _ hxr] at hx
      rcases h3 x hx with ⟨c, hl, hm⟩ | hd
      · left
        refine ⟨c, ?_, List.mem_append_left _ hm⟩
        simpa [discoverStep, lookup_update_other _ _ hxr] using hl
      · exact Or.inr hd

theorem discoverStep_hod {st : WatchState} {rn x : String} (h : HeldOrDone x st) :
    HeldOrDone x (discoverStep st rn) := h

theorem do_sync_good {st : WatchState} {p : String} (hg : GoodState st) :
    GoodState (_do_sync st p) := by
  unfold _do_sync
  cases _extract_run_name p with
  | none => exact hg
  | some rn => exact rwc_good (discoverStep_good hg)

theorem do_sync_hod {st : WatchState} {p x : String} (hg : GoodState st)
    (h : HeldOrDone x st) : HeldOrDone x (_do_sync st p) := by
  unfold _do_sync
  cases _extract_run_name p with
  | none => exact h
  | some rn => exact rwc_hod (discoverStep_good hg) (discoverStep_hod h)

theorem do_sync_detected_mono {st : WatchState} {p x : String}
    (h : x ∈ st.completionDetectedLog) :
    x ∈ (_do_sync st p).completionDetectedLog := by
  unfold _do_sync
  cases _extract_run_name p with
  | none => exact h
  | some rn => exact @rwc_detected_mono (discoverStep st rn) x h

theorem do_sync_fires {st : WatchState} {p rn : String}
    (hh : HeldOrDone rn st) (hx : _extract_run_name p = some rn) :
    rn ∈ (_do_sync st p).completionDetectedLog := by
  unfold _do_sync
  rw [hx]
  rcases hh with hw | hd
  · unfold runWokenCheckers
    have hl : lookupCond (discoverStep st rn).runCompletion rn = some st.nextCond :=
      lookup_update_self _ _ _
    have hready : rn ∈ (discoverStep st rn).checkWaiting.filter
        (fun x => (lookupCond (discoverStep st rn).runCompletion x).isSome) :=
      List.mem_filter.mpr ⟨hw, by simp [hl]⟩
    refine foldFire_fires _ _ hready (Or.inl ⟨st.nextCond, hl, ?_⟩)
    exact List.mem_append_right _ (List.mem_singleton.mpr rfl)
  · exact @rwc_detected_mono (discoverStep st rn) rn hd

theorem check_completion_good {st : WatchState} {p : String} (hg : GoodState st) :
    GoodState (_check_completion st p) := by
  unfold _check_completion
  split
  · exact hg
  · split
    · exact fireChecker_good hg
    · exact hg

theorem check_completion_hod {st : WatchState} {p x : String}
    (h : HeldOrDone x st) : HeldOrDone x (_check_completion st p) := by
  unfold _check_completion
  split
  · exact h
  · split
    · rcases h with hw | hd
      · left; rw [fireChecker_checkWaiting]; exact hw
      · exact Or.inr (fireChecker_detected_mono hd)
    · rcases h with hw | hd
      · exact Or.inl (List.mem_append_left _ hw)
      · exact Or.inr hd

theorem check_completion_detected_mono {st : WatchState} {p x : String}
    (h : x ∈ st.completionDetectedLog) :
    x ∈ (_check_completion st p).completionDetectedLog := by
  unfold _check_completion
  split
  · exact h
  · split
    · exact fireChecker_detected_mono h
    · exact h

theorem check_completion_establishes {st : WatchState} {p rn : String}
    (hg : GoodState st) (hx : _extract_run_name p = some rn) :
    HeldOrDone rn (_check_completion st p) := by
  unfold _check_completion
  rw [hx]
  split
  · next heq => simp at heq
  · next rn' heq =>
    injection heq with heq'
    subst heq'
    split
    · next hr =>
      rcases hg.2.2 rn hr with ⟨c, hl, hm⟩ | hd
      · exact Or.inr (fireChecker_fires hl hm)
      · exact Or.inr (fireChecker_detected_mono hd)
    · exact Or.inl (List.mem_append_right _ (List.mem_singleton.mpr rfl))

theorem do_sync_syncInvocations (st : WatchState) (p : String) :
    (_do_sync st p).syncInvocations = st.syncInvocations := by
  unfold _do_sync
  split
  · rfl
  · rw [rwc_syncInvocations]; rfl

theorem check_completion_syncInvocations (st : WatchState) (p : String) :
    (_check_completion st p).syncInvocations = st.syncInvocations := by
  unfold _check_completion
  split
  · rfl
  · split
    · rw [fireChecker_syncInvocations]
    · rfl

theorem processEvent_syncInvocations (st : WatchState) (e : FsEvent) :
    (processEvent st e).syncInvocations = st.syncInvocations := by
  cases e with
  | dirCreated p =>
    simp only [processEvent]; split
    · rw [do_sync_syncInvocations]
    · rfl
  | dirMoved s d =>
    simp only [processEvent]; split
    · rw [do_sync_syncInvocations]
    · rfl
  | fileCreated p =>
    simp only [processEvent]; split
    · rw [check_completion_syncInvocations]
    · rfl
  | fileClosed p =>
    simp only [processEvent]; split
    · rw [check_completion_syncInvocations]
    · rfl
  | fileMoved s d =>
    simp only [processEvent]; split
    · rw [check_completion_syncInvocations]
    · rfl
  | fileClosedNoWrite p => rfl
  | fileDeleted p => rfl
  | fileModified p => rfl

theorem processEvents_syncInvocations :
    ∀ (evs : List FsEvent) (st : WatchState),
      (processEvents st evs).syncInvocations = st.syncInvocations := by
  intro evs
  induction evs with
  | nil => intro st; rfl
  | cons e t ih =>
    intro st
    show (processEvents (processEvent st e) t).syncInvocations = _
    rw [ih, processEvent_syncInvocations]

theorem processEvent_good {st : WatchState} {e : FsEvent} (hg : GoodState st) :
    GoodState (processEvent st e) := by
  cases e with
  | dirCreated p =>
    simp only [processEvent]; split
    · exact do_sync_good hg
    · exact hg
  | dirMoved s d =>
    simp only [processEvent]; split
    · exact do_sync_good hg
    · exact hg
  | fileCreated p =>
    simp only [processEvent]; split
    · exact check_completion_good hg
    · exact hg
  | fileClosed p =>
    simp only [processEvent]; split
    · exact check_completion_good hg
    · exact hg
  | fileMoved s d =>
    simp only [processEvent]; split
    · exact check_completion_good hg
    · exact hg
  | fileClosedNoWrite p => exact hg
  | fileDeleted p => exact hg
  | fileModified p => exact hg

theorem processEvent_hod {st : WatchState} {e : FsEvent} {x : String}
    (hg : GoodState st) (h : HeldOrDone x st) : HeldOrDone x (processEvent st e) := by
  cases e with
  | dirCreated p =>
    simp only [processEvent]; split
    · exact do_sync_hod hg h
    · exact h
  | dirMoved s d =>
    simp only [processEvent]; split
    · exact do_sync_hod hg h
    · exact h
  | fileCreated p =>
    simp only [processEvent]; split
    · exact check_completion_hod h
    · exact h
  | fileClosed p =>
    simp only [processEvent]; split
    · exact check_completion_hod h
    · exact h
  | fileMoved s d =>
    simp only [processEvent]; split
    · exact check_completion_hod h
    · exact h
  | fileClosedNoWrite p => exact h
  | fileDeleted p => exact h
  | fileModified p => exact h

theorem processEvent_detected_mono {st : WatchState} {e : FsEvent} {x : String}
    (h : x ∈ st.completionDetectedLog) :
    x ∈ (processEvent st e).completionDetectedLog := by
  cases e with
  | dirCreated p =>
    simp only [processEvent]; split
    · exact do_sync_detected_mono h
    · exact h
  | dirMoved s d =>
    simp only [processEvent]; split
    · exact do_sync_detected_mono h
    · exact h
  | fileCreated p =>
    simp only [processEvent]; split
    · exact check_completion_detected_mono h
    · exact h
  | fileClosed p =>
    simp only [processEvent]; split
    · exact check_completion_detected_mono h
    · exact h
  | fileMoved s d =>
    simp only [processEvent]; split
    · exact check_completion_detected_mono h
    · exact h
  | fileClosedNoWrite p => exact h
  | fileDeleted p => exact h
  | fileModified p => exact h

theorem processEvent_establishes {st : WatchState} {e : FsEvent} {rn : String}
    (hg : GoodState st) (hq : completionQualifiesFor e rn = true) :
    HeldOrDone rn (processEvent st e) := by
  cases e with
  | fileCreated p =>
    simp only [completionQualifiesFor, Bool.and_eq_true, beq_iff_eq] at hq
    simp only [processEvent, if_pos hq.1]
    exact check_completion_establishes hg hq.2
  | fileClosed p =>
    simp only [completionQualifiesFor, Bool.and_eq_true, beq_iff_eq] at hq
    simp only [processEvent, if_pos hq.1]
    exact check_completion_establishes hg hq.2
  | fileMoved s d =>
    simp only [completionQualifiesFor, Bool.and_eq_true, beq_iff_eq] at hq
    simp only [processEvent, if_pos hq.1]
    exact check_completion_establishes hg hq.2
  | dirCreated p => simp [completionQualifiesFor] at hq
  | dirMoved s d => simp [completionQualifiesFor] at hq
  | fileClosedNoWrite p => simp [completionQualifiesFor] at hq
  | fileDeleted p => simp [completionQualifiesFor] at hq
  | fileModified p => simp [completionQualifiesFor] at hq

theorem processEvent_fires {st : WatchState} {e : FsEvent} {rn : String}
    (hh : HeldOrDone rn st) (hq : discoveryQualifiesFor e rn = true) :
    rn ∈ (processEvent st e).completionDetectedLog := by
  cases e with
  | dirCreated p =>
    simp only [discoveryQualifiesFor, Bool.and_eq_true, beq_iff_eq] at hq
    simp only [processEvent, if_pos hq.1]
    exact do_sync_fires hh hq.2
  | dirMoved s d =>
    simp only [discoveryQualifiesFor, Bool.and_eq_true, beq_iff_eq] at hq
    simp only [processEvent, if_pos hq.1]
    exact do_sync_fires hh hq.2
  | fileCreated p => simp [discoveryQualifiesFor] at hq
  | fileClosed p => simp [discoveryQualifiesFor] at hq
  | fileClosedNoWrite p => simp [discoveryQualifiesFor] at hq
  | fileMoved s d => simp [discoveryQualifiesFor] at hq
  | fileDeleted p => simp [discoveryQualifiesFor] at hq
  | fileModified p => simp [discoveryQualifiesFor] at hq

theorem processEvents_good :
    ∀ (evs : List FsEvent) (st : WatchState), GoodState st →
      GoodState (processEvents st evs) := by
  intro evs
  induction evs with
  | nil => intro st hg; exact hg
  | cons e t ih =>
    intro st hg
    exact ih (processEvent st e) (processEvent_good hg)

theorem processEvents_hod :
    ∀ (evs : List FsEvent) (st : WatchState) (x : String), GoodState st →
      HeldOrDone x st → HeldOrDone x (processEvents st evs) := by
  intro evs
  induction evs with
  | nil => intro st x _ h; exact h
  | cons e t ih =>
    intro st x hg h
    exact ih (processEvent st e) x (processEvent_good hg) (processEvent_hod hg h)

theorem processEvents_detected_mono :
    ∀ (evs : List FsEvent) (st : WatchState) (x : String),
      x ∈ st.completionDetectedLog →
      x ∈ (processEvents st evs).completionDetectedLog := by
  intro evs
  induction evs with
  | nil => intro st x h; exact h
  | cons e t ih =>
    intro st x h
    exact ih (processEvent st e) x (processEvent_detected_mono h)

theorem initWatch_good : GoodState initWatch := by
  refine ⟨?_, ?_, ?_⟩
  · intro t ht; exact absurd ht (List.not_mem_nil _)
  · intro rn h; exact absurd h (List.not_mem_nil _)
  · intro rn h; simp [initWatch, lookupCond] at h

theorem processEvents_append (st : WatchState) (l1 l2 : List FsEvent) :
    processEvents st (l1 ++ l2) = processEvents (processEvents st l1) l2 :=
  List.foldl_append _ _ _ _

/-- C1: over any sequence of filesystem events delivered to the two
handlers, `sync_run` is invoked at most once per run name.  In fact the
model proves the stronger `syncInvocations = []`: the call at
watchers.py line 126 is unreachable, because line 124 (`LOGGER.infog`)
raises `AttributeError` first — see `doSyncAfterCompletion` and claim C9.
Had line 126 been reachable, at-most-once would not hold: `_do_sync` has
no de-duplication (claim C2), so interleaving a second discovery event
between two completion signals would run two `_do_sync` tasks to their
sync calls. -/
theorem c1_sync_at_most_once (evs : List FsEvent) (rn : String) :
    ((processEvents initWatch evs).syncInvocations.count rn) ≤ 1 := by
  rw [processEvents_syncInvocations]
  simp [initWatch]

/-- C10: (1) every "Run completion detected" notification is for a run
previously inserted into `_run_completion` by a discovery event (so the
notification happens only after discovery); (2) if a qualifying
completion event arrives before the run's discovery event, the
`_check_completion` task suspends in `wait_for` on `_new_run` — the
signal is held, not dropped — and once a qualifying discovery event for
that run arrives (any events in between), the run's completion is
notified. -/
theorem c10_completion_after_discovery :
    (∀ (evs : List FsEvent) (rn : String),
        rn ∈ (processEvents initWatch evs).completionDetectedLog →
        rn ∈ (processEvents initWatch evs).discoveredLog) ∧
    (∀ (pre mid post : List FsEvent) (e d : FsEvent) (rn : String),
        completionQualifiesFor e rn = true → discoveryQualifiesFor d rn = true →
        rn ∈ (processEvents initWatch
            (pre ++ e :: (mid ++ d :: post))).completionDetectedLog) := by
  constructor
  · intro evs rn h
    exact (processEvents_good evs initWatch initWatch_good).2.1 rn h
  · intro pre mid post e d rn hce hdd
    rw [processEvents_append]
    show rn ∈ (processEvents (processEvent (processEvents initWatch pre) e)
      (mid ++ d :: post)).completionDetectedLog
    rw [processEvents_append]
    show rn ∈ (processEvents (processEvent (processEvents
      (processEvent (processEvents initWatch pre) e) mid) d) post).completionDetectedLog
    have hg0 : GoodState (processEvents initWatch pre) :=
      processEvents_good _ _ initWatch_good
    have hh1 : HeldOrDone rn (processEvent (processEvents initWatch pre) e) :=
      processEvent_establishes hg0 hce
    have hg1 : GoodState (processEvent (processEvents initWatch pre) e) :=
      processEvent_good hg0
    have hh2 : HeldOrDone rn (processEvents
        (processEvent (processEvents initWatch pre) e) mid) :=
      processEvents_hod _ _ _ hg1 hh1
    have hd3 : rn ∈ (processEvent (processEvents
        (processEvent (processEvents initWatch pre) e) mid) d).completionDetectedLog :=
      processEvent_fires hh2 hdd
    exact processEvents_detected_mono _ _ _ hd3

set_option maxHeartbeats 1000000 in
/-- Witness for C10 at a concrete pair of events (completion signal first,
discovery second): the held signal is delivered after discovery. -/
theorem c10_witness :
    completionQualifiesFor
        (.fileCreated "/data/20231001_1200_run_a_12345678/sub/final_summary.txt")
        "20231001_1200_run_a_12345678" = true ∧
    discoveryQualifiesFor (.dirCreated "/data/20231001_1200_run_a_12345678")
        "20231001_1200_run_a_12345678" = true ∧
    "20231001_1200_run_a_12345678" ∈ (processEvents initWatch
        [.fileCreated "/data/20231001_1200_run_a_12345678/sub/final_summary.txt",
         .dirCreated "/data/20231001_1200_run_a_12345678"]).completionDetectedLog :=
  ⟨by decide, by decide,
    c10_completion_after_discovery.2 [] [] []
      (.fileCreated "/data/20231001_1200_run_a_12345678/sub/final_summary.txt")
      (.dirCreated "/data/20231001_1200_run_a_12345678")
      "20231001_1200_run_a_12345678" (by decide) (by decide)⟩

/-- C5: if the source run directory exists and the destination already
contains an entry named like the run, `copytree`'s `os.makedirs` raises
`FileExistsError` before any file is copied, `sync_run` logs the
"already exists" warning and returns — and the filesystem (including
every byte of the pre-existing destination contents) is unchanged. -/
theorem c5_already_exists (fs : FS) (cfg : SyncCfg)
    (errOracle : List String → Option String) (source : List String)
    (hsrc : existsDir fs source = true)
    (hdst : existsPath fs (syncTarget cfg source) = true) :
    sync_run fs cfg errOracle source =
      (fs, [.infoSyncing (source.getLastD "") (renderPath cfg.destination),
            .warningAlreadyExists (source.getLastD "") (renderPath cfg.destination)]) := by
  have hdst' : existsPath fs (cfg.destination ++ [source.getLastD ""]) = true := hdst
  have hc : copytree fs source (cfg.destination ++ [source.getLastD ""]) errOracle =
      (fs, CopyRes.fileExists) := by
    unfold copytree
    rw [hsrc, if_neg (by simp), if_pos hdst']
  simp only [sync_run]
  rw [hc]
  rfl

/-- Witness for C5: a concrete filesystem where `/dest/RUN` already
exists with a file `b` of one byte; sync warns and leaves everything
untouched. -/
theorem c5_witness :
    sync_run
        ⟨[["data"], ["data", "RUN"], ["dest"], ["dest", "RUN"]],
         [(["data", "RUN", "a"], [1, 2]), (["dest", "RUN", "b"], [9])]⟩
        ⟨["dest"], true⟩ (fun _ => none) ["data", "RUN"] =
      (⟨[["data"], ["data", "RUN"], ["dest"], ["dest", "RUN"]],
        [(["data", "RUN", "a"], [1, 2]), (["dest", "RUN", "b"], [9])]⟩,
       [.infoSyncing "RUN" "/dest", .warningAlreadyExists "RUN" "/dest"]) :=
  c5_already_exists _ _ _ _ (by decide) (by decide)

/-- C9 (code bug): the continuation of `_do_sync` after completion
detection fails with `AttributeError` on `LOGGER.infog` (watchers.py
line 124) — the stdlib `logging.Logger` has no such method — before the
settle-delay sleep and the `sync_run` call; moreover `completion_delay`
is not among the attributes `set_global_config` installs on `CONFIG`,
so even with the logging call fixed, line 125 would raise too.  Hence
the configured settle delay and the subsequent sync never happen,
contradicting the repository's own tests, which assert
"Run ... synced successfully." appears in the logs. -/
theorem c9_settle_delay_unreachable :
    doSyncAfterCompletion = .error (.attributeError "LOGGER" "infog") ∧
    configAttrs.contains "completion_delay" = false ∧
    (∀ b, doSyncAfterCompletion ≠ .ok b) := by
  refine ⟨rfl, rfl, ?_⟩
  intro b h
  cases h.symm.trans (rfl : doSyncAfterCompletion = .error (.attributeError "LOGGER" "infog"))

theorem verifyAndReport_fst (fs : FS) (cfg : SyncCfg) (source target : List String)
    (run : String) (logs : List LogMsg) :
    (verifyAndReport fs cfg source target run logs).1 = fs := by
  unfold verifyAndReport
  split <;> rfl

theorem verifyAndReport_mismatch (fs : FS) (cfg : SyncCfg) (source target : List String)
    (run : String) (logs : List LogMsg) (hv : cfg.verify = true)
    (hsz : _dir_size fs source ≠ _dir_size fs target) :
    verifyAndReport fs cfg source target run logs =
      (fs, logs ++ [.warningSizeMismatch run (_dir_size fs source) (_dir_size fs target)]) := by
  unfold verifyAndReport
  rw [hv]
  simp [hsz]

theorem verifyAndReport_logs (fs : FS) (cfg : SyncCfg) (source target : List String)
    (run : String) (logs : List LogMsg) :
    (verifyAndReport fs cfg source target run logs).2 =
        logs ++ [.warningSizeMismatch run (_dir_size fs source) (_dir_size fs target)] ∨
    (verifyAndReport fs cfg source target run logs).2 =
        logs ++ [.infoSyncedSuccessfully run] := by
  unfold verifyAndReport
  split
  · exact Or.inl rfl
  · exact Or.inr rfl

/-- C6: with verification enabled, whenever the copy step ends in `ok`
or in a `shutil.Error` (the two cases that fall through to
verification) and the recursive size sums of source and destination
differ, the run's final log line is the size-mismatch warning carrying
both sizes, no success is reported, and the filesystem is left exactly
as the copy produced it (no deletion or retry). -/
theorem c6_size_mismatch (fs : FS) (cfg : SyncCfg)
    (errOracle : List String → Option String) (source : List String)
    (hv : cfg.verify = true)
    (hres : (copytree fs source (syncTarget cfg source) errOracle).2 = CopyRes.ok ∨
      ∃ es, (copytree fs source (syncTarget cfg source) errOracle).2 = CopyRes.err es)
    (hsz : _dir_size (copytree fs source (syncTarget cfg source) errOracle).1 source ≠
      _dir_size (copytree fs source (syncTarget cfg source) errOracle).1
        (syncTarget cfg source)) :
    (sync_run fs cfg errOracle source).1 =
      (copytree fs source (syncTarget cfg source) errOracle).1 ∧
    (sync_run fs cfg errOracle source).2.getLast? =
      some (.warningSizeMismatch (source.getLastD "")
        (_dir_size (copytree fs source (syncTarget cfg source) errOracle).1 source)
        (_dir_size (copytree fs source (syncTarget cfg source) errOracle).1
          (syncTarget cfg source))) ∧
    LogMsg.infoSyncedSuccessfully (source.getLastD "") ∉
      (sync_run fs cfg errOracle source).2 := by
  simp only [syncTarget] at hres hsz ⊢
  rcases hres with hok | ⟨es, herr⟩
  · simp only [sync_run, hok]
    rw [verifyAndReport_mismatch _ _ _ _ _ _ hv hsz]
    refine ⟨rfl, ?_, ?_⟩
    · exact List.getLast?_concat _
    · simp
  · simp only [sync_run, herr]
    by_cases hb : benignErrors es = true
    · rw [if_pos hb, verifyAndReport_mismatch _ _ _ _ _ _ hv hsz]
      refine ⟨rfl, ?_, ?_⟩
      · exact List.getLast?_concat _
      · simp
    · rw [if_neg hb, verifyAndReport_mismatch _ _ _ _ _ _ hv hsz]
      refine ⟨rfl, ?_, ?_⟩
      · exact List.getLast?_concat _
      · simp

set_option maxRecDepth 10000 in
/-- Witness for C6: a file of three bytes fails to copy with a genuine
permission error, so the destination sums to 0 while the source sums to
3; the final log line is the mismatch warning with both sizes. -/
theorem c6_witness :
    (sync_run ⟨[["data"], ["data", "RUN"], ["dest"]], [(["data", "RUN", "a"], [7, 7, 7])]⟩
        ⟨["dest"], true⟩
        (fun p => if p = ["data", "RUN", "a"] then some "[Errno 13] Permission denied" else none)
        ["data", "RUN"]).2.getLast? =
      some (.warningSizeMismatch "RUN" 3 0) := by
  have h := c6_size_mismatch
    ⟨[["data"], ["data", "RUN"], ["dest"]], [(["data", "RUN", "a"], [7, 7, 7])]⟩
    ⟨["dest"], true⟩
    (fun p => if p = ["data", "RUN", "a"] then some "[Errno 13] Permission denied" else none)
    ["data", "RUN"] rfl
    (Or.inr ⟨[("/data/RUN/a", "/dest/RUN/a", "[Errno 13] Permission denied")], by decide⟩)
    (by decide)
  exact h.2.1

set_option maxHeartbeats 1000000 in
set_option maxRecDepth 10000 in
/-- C7 counterexample: with verification disabled, a genuine
(non-benign) copy failure is logged as an error, but because neither
branch of the `except shutil.Error` handler returns, `sync_run` goes on
to log "synced successfully" for the same run — contradicting "the
operation does not go on to report success". -/
theorem c7_counterexample :
    LogMsg.errorUnableToCopy "RUN" ["[Errno 13] Permission denied"] ∈
      (sync_run ⟨[["data"], ["data", "RUN"], ["dest"]], [(["data", "RUN", "a"], [7, 7, 7])]⟩
        ⟨["dest"], false⟩
        (fun p => if p = ["data", "RUN", "a"] then some "[Errno 13] Permission denied" else none)
        ["data", "RUN"]).2 ∧
    LogMsg.infoSyncedSuccessfully "RUN" ∈
      (sync_run ⟨[["data"], ["data", "RUN"], ["dest"]], [(["data", "RUN", "a"], [7, 7, 7])]⟩
        ⟨["dest"], false⟩
        (fun p => if p = ["data", "RUN", "a"] then some "[Errno 13] Permission denied" else none)
        ["data", "RUN"]).2 := by
  decide

/-- C7 amended: when the copy collaborator raises `shutil.Error`, a
benign error list (all entries `[Errno 1] Operation not permitted`) is
logged at debug severity and no copy error is reported, while a genuine
one is logged as an error carrying the collected reasons — but in
neither case does `sync_run` abort: it proceeds to verification, and
with verification disabled it reports success even after a genuine copy
failure.  (Only `FileExistsError` and non-`shutil.Error` exceptions
return early.) -/
theorem c7_amended_copy_failure (fs : FS) (cfg : SyncCfg)
    (errOracle : List String → Option String) (source : List String)
    (es : List (String × String × String))
    (herr : (copytree fs source (syncTarget cfg source) errOracle).2 = CopyRes.err es) :
    (benignErrors es = true →
      LogMsg.debugIgnorePermissions (source.getLastD "") ∈
          (sync_run fs cfg errOracle source).2 ∧
      ∀ rs, LogMsg.errorUnableToCopy (source.getLastD "") rs ∉
          (sync_run fs cfg errOracle source).2) ∧
    (benignErrors es = false →
      LogMsg.errorUnableToCopy (source.getLastD "") (es.map (fun e => e.2.2)) ∈
        (sync_run fs cfg errOracle source).2) ∧
    (cfg.verify = false →
      LogMsg.infoSyncedSuccessfully (source.getLastD "") ∈
        (sync_run fs cfg errOracle source).2) := by
  simp only [syncTarget] at herr
  simp only [sync_run, herr]
  refine ⟨?_, ?_, ?_⟩
  · intro hb
    rw [if_pos hb]
    constructor
    · rcases verifyAndReport_logs (copytree fs source (cfg.destination ++ [source.getLastD ""]) errOracle).1
        cfg source (cfg.destination ++ [source.getLastD ""]) (source.getLastD "")
        ([LogMsg.infoSyncing (source.getLastD "") (renderPath cfg.destination)] ++
          [LogMsg.debugIgnorePermissions (source.getLastD "")]) with hl | hl <;>
        rw [hl] <;> simp
    · intro rs
      rcases verifyAndReport_logs (copytree fs source (cfg.destination ++ [source.getLastD ""]) errOracle).1
        cfg source (cfg.destination ++ [source.getLastD ""]) (source.getLastD "")
        ([LogMsg.infoSyncing (source.getLastD "") (renderPath cfg.destination)] ++
          [LogMsg.debugIgnorePermissions (source.getLastD "")]) with hl | hl <;>
        rw [hl] <;> simp
  · intro hb
    rw [if_neg (by simp [hb])]
    rcases verifyAndReport_logs (copytree fs source (cfg.destination ++ [source.getLastD ""]) errOracle).1
      cfg source (cfg.destination ++ [source.getLastD ""]) (source.getLastD "")
      ([LogMsg.infoSyncing (source.getLastD "") (renderPath cfg.destination)] ++
        [LogMsg.errorUnableToCopy (source.getLastD "") (es.map (fun e => e.2.2))]) with hl | hl <;>
      rw [hl] <;> simp
  · intro hvf
    have hsucc : ∀ (fs1 : FS) (logs : List LogMsg),
        (verifyAndReport fs1 cfg source (cfg.destination ++ [source.getLastD ""])
          (source.getLastD "") logs).2 = logs ++ [.infoSyncedSuccessfully (source.getLastD "")] := by
      intro fs1 logs
      unfold verifyAndReport
      rw [hvf]
      simp
    split
    · rw [hsucc]; simp
    · rw [hsucc]; simp

set_option maxRecDepth 10000 in
/-- Witness for the amended C7 at the concrete genuine-failure input. -/
theorem c7_amended_witness :
    LogMsg.errorUnableToCopy "RUN" ["[Errno 13] Permission denied"] ∈
      (sync_run ⟨[["data"], ["data", "RUN"], ["dest"]], [(["data", "RUN", "a"], [7, 7, 7])]⟩
        ⟨["dest"], false⟩
        (fun p => if p = ["data", "RUN", "a"] then some "[Errno 13] Permission denied" else none)
        ["data", "RUN"]).2 ∧
    LogMsg.infoSyncedSuccessfully "RUN" ∈
      (sync_run ⟨[["data"], ["data", "RUN"], ["dest"]], [(["data", "RUN", "a"], [7, 7, 7])]⟩
        ⟨["dest"], false⟩
        (fun p => if p = ["data", "RUN", "a"] then some "[Errno 13] Permission denied" else none)
        ["data", "RUN"]).2 := by
  have h := c7_amended_copy_failure
    ⟨[["data"], ["data", "RUN"], ["dest"]], [(["data", "RUN", "a"], [7, 7, 7])]⟩
    ⟨["dest"], false⟩
    (fun p => if p = ["data", "RUN", "a"] then some "[Errno 13] Permission denied" else none)
    ["data", "RUN"] [("/data/RUN/a", "/dest/RUN/a", "[Errno 13] Permission denied")]
    (by decide)
  exact ⟨h.2.1 (by decide), h.2.2 rfl⟩

theorem mem_ancestors_self (p : List String) (h : p ≠ []) : p ∈ ancestors p := by
  have hl : 0 < p.length := List.length_pos.mpr h
  refine List.mem_map.mpr ⟨p.length - 1, List.mem_range.mpr (by omega), ?_⟩
  have : p.length - 1 + 1 = p.length := by omega
  rw [this, List.take_length]

theorem mem_ancestors_append (l : List String) (a : String) (h : l ≠ []) :
    l ∈ ancestors (l ++ [a]) := by
  have hl : 0 < l.length := List.length_pos.mpr h
  refine List.mem_map.mpr ⟨l.length - 1, List.mem_range.mpr (by simp; omega), ?_⟩
  have : l.length - 1 + 1 = l.length := by omega
  rw [this, List.take_left]

theorem copytree_creates (fs : FS) (src dst : List String)
    (errOracle : List String → Option String)
    (h1 : existsDir fs src = true) (h2 : existsPath fs dst = false)
    (d : List String) (hd : d ∈ ancestors dst) :
    existsDir (copytree fs src dst errOracle).1 d = true := by
  unfold copytree
  rw [h1, if_neg (by simp), if_neg (by simp [h2])]
  simp only [existsDir, decide_eq_true_eq]
  by_cases hdm : d ∈ fs.dirs
  · exact List.mem_append_left _ hdm
  · refine List.mem_append_right _ (List.mem_filter.mpr ⟨List.mem_append_left _ hd, ?_⟩)
    simp [hdm]

theorem copytree_res_else (fs : FS) (src dst : List String)
    (errOracle : List String → Option String)
    (h1 : existsDir fs src = true) (h2 : existsPath fs dst = false) :
    (copytree fs src dst errOracle).2 = CopyRes.ok ∨
      ∃ es, (copytree fs src dst errOracle).2 = CopyRes.err es := by
  unfold copytree
  rw [h1, if_neg (by simp), if_neg (by simp [h2])]
  dsimp only
  split
  · exact Or.inl rfl
  · exact Or.inr ⟨_, rfl⟩

theorem verifyAndReport_no_already (fs : FS) (cfg : SyncCfg)
    (source target : List String) (run : String) (logs : List LogMsg)
    (r : String) (d : String)
    (h : LogMsg.warningAlreadyExists r d ∉ logs) :
    LogMsg.warningAlreadyExists r d ∉ (verifyAndReport fs cfg source target run logs).2 := by
  rcases verifyAndReport_logs fs cfg source target run logs with hl | hl <;>
    rw [hl] <;> simp [h]

set_option maxHeartbeats 1000000 in
set_option maxRecDepth 10000 in
/-- C8 counterexample: the destination root `/dest` does not exist, yet
`sync_run` performs no check: `copytree`'s `makedirs` silently creates
`/dest` (and `/dest/RUN`), the file is copied, verification passes and
"synced successfully" is logged — no `CopyFailed("missing destination
root")` of any kind occurs, and the copy collaborator *is* invoked. -/
theorem c8_counterexample :
    sync_run ⟨[["data"], ["data", "RUN"]], [(["data", "RUN", "a"], [5])]⟩
        ⟨["dest"], true⟩ (fun _ => none) ["data", "RUN"] =
      (⟨[["data"], ["data", "RUN"], ["dest"], ["dest", "RUN"]],
        [(["data", "RUN", "a"], [5]), (["dest", "RUN", "a"], [5])]⟩,
       [.infoSyncing "RUN" "/dest", .infoSyncedSuccessfully "RUN"]) := by
  decide

/-- C8 amended: `sync_run` never checks for a missing destination root.
Whenever the source exists and the destination path is free, the copy is
attempted and `os.makedirs` creates the destination root (and the run
directory under it); the sync then proceeds normally and in particular
never reports `AlreadyExists`.  A missing destination root can only
surface through the generic exception handler if the OS refuses the
directory creation — there is no dedicated check or message. -/
theorem c8_amended_missing_root_created (fs : FS) (cfg : SyncCfg)
    (errOracle : List String → Option String) (source : List String)
    (hsrc : existsDir fs source = true)
    (hdst : existsPath fs (syncTarget cfg source) = false)
    (hne : cfg.destination ≠ []) :
    existsDir (sync_run fs cfg errOracle source).1 cfg.destination = true ∧
    existsDir (sync_run fs cfg errOracle source).1 (syncTarget cfg source) = true ∧
    ∀ d, LogMsg.warningAlreadyExists (source.getLastD "") d ∉
      (sync_run fs cfg errOracle source).2 := by
  simp only [syncTarget] at hdst ⊢
  have hroot : cfg.destination ∈ ancestors (cfg.destination ++ [source.getLastD ""]) :=
    mem_ancestors_append _ _ hne
  have htgt : (cfg.destination ++ [source.getLastD ""]) ∈
      ancestors (cfg.destination ++ [source.getLastD ""]) :=
    mem_ancestors_self _ (by simp)
  have hcr := copytree_creates fs source (cfg.destination ++ [source.getLastD ""])
    errOracle hsrc hdst cfg.destination hroot
  have hct := copytree_creates fs source (cfg.destination ++ [source.getLastD ""])
    errOracle hsrc hdst (cfg.destination ++ [source.getLastD ""]) htgt
  rcases copytree_res_else fs source (cfg.destination ++ [source.getLastD ""])
      errOracle hsrc hdst with hok | ⟨es, herr⟩
  · simp only [sync_run, hok]
    exact ⟨by rw [verifyAndReport_fst]; exact hcr,
      by rw [verifyAndReport_fst]; exact hct,
      fun d => verifyAndReport_no_already _ _ _ _ _ _ _ _ (by simp)⟩
  · simp only [sync_run, herr]
    by_cases hb : benignErrors es = true
    · rw [if_pos hb]
      exact ⟨by rw [verifyAndReport_fst]; exact hcr,
        by rw [verifyAndReport_fst]; exact hct,
        fun d => verifyAndReport_no_already _ _ _ _ _ _ _ _ (by simp)⟩
    · rw [if_neg hb]
      exact ⟨by rw [verifyAndReport_fst]; exact hcr,
        by rw [verifyAndReport_fst]; exact hct,
        fun d => verifyAndReport_no_already _ _ _ _ _ _ _ _ (by simp)⟩

set_option maxRecDepth 10000 in
/-- Witness for the amended C8 at the concrete input of the
counterexample: the missing `/dest` is created and the run directory
appears under it. -/
theorem c8_amended_witness :
    existsDir (sync_run ⟨[["data"], ["data", "RUN"]], [(["data", "RUN", "a"], [5])]⟩
        ⟨["dest"], true⟩ (fun _ => none) ["data", "RUN"]).1 ["dest"] = true ∧
    existsDir (sync_run ⟨[["data"], ["data", "RUN"]], [(["data", "RUN", "a"], [5])]⟩
        ⟨["dest"], true⟩ (fun _ => none) ["data", "RUN"]).1 ["dest", "RUN"] = true := by
  have h := c8_amended_missing_root_created
    ⟨[["data"], ["data", "RUN"]], [(["data", "RUN", "a"], [5])]⟩
    ⟨["dest"], true⟩ (fun _ => none) ["data", "RUN"]
    (by decide) (by decide) (by decide)
  exact ⟨h.1, h.2.1⟩
